import Mathlib

/-!
Shallow embedding of the monoscad build-helper layer
(`site_scons/site_init.py`): the archive packager (`zip_file_dest`,
`make_zip`), the change filter (`_allowed_by_ref_filter`, `ref_filter`),
the image renderer (`render_image`) and the option-product iterator
(`GenerateOptions`), together with theorems settling the specification
claims about them.

Python strings are modelled as Lean `String`s, with the Python string
operations (`startswith`, `endswith`, `in`, slicing) expressed over the
underlying character lists.  Python `None`-returning functions become
`Option`-valued, a raised subprocess exception becomes an `Except.error`
input, and Python dicts (`zip_dirs`) become association lists in which an
assignment prepends an entry, so that lookup finds the most recent
binding first, exactly as `dict.get` sees the most recent assignment.
-/

set_option autoImplicit false

namespace Monoscad

/-! ### String utilities (Python `str` operations over character lists) -/

/-- Python `value.startswith(p)`: the first `len(p)` characters of `s`
are exactly `p`. -/
def strStartsWith (s p : String) : Bool := decide (s.data.take p.length = p.data)

/-- Python `value.endswith(p)`. -/
def strEndsWith (s p : String) : Bool := p.data.isSuffixOf s.data

/-- Python `value[n:]` (drop the first `n` characters). -/
def strDrop (s : String) (n : Nat) : String := ⟨s.data.drop n⟩

/-- Helper for Python `pat in s`: does `pat` occur as a contiguous
sublist of `s`? -/
def hasSubstr (pat : List Char) : List Char → Bool
  | [] => pat.isEmpty
  | c :: t => decide ((c :: t).take pat.length = pat) || hasSubstr pat t

/-- Python `pat in s` for strings. -/
def strContains (s pat : String) : Bool := hasSubstr pat.data s.data

/-- Python `s.split(c)` for a single-character separator, over character
lists: splits at every occurrence of `c`, keeping empty pieces. -/
def splitChar (c : Char) : List Char → List (List Char)
  | [] => [[]]
  | x :: xs =>
    match splitChar c xs with
    | [] => [[x]]
    | g :: gs => if x = c then [] :: g :: gs else (x :: g) :: gs

/-! ### Path utilities (`pathlib.PurePath` on normalized relative paths)

`pathlib` normalizes a relative path by dropping empty and `.`
components; the paths handled here (build-tool node paths and
`git diff --name-only` output) are relative, so absolute-path anchors
are not modelled. -/

/-- The normalized components of a relative path: split on `/`, dropping
empty and `.` parts, as `pathlib.PurePath(p).parts` does. -/
def pathComponents (p : String) : List (List Char) :=
  (splitChar '/' p.data).filter (fun comp => comp ≠ [] ∧ comp ≠ ['.'])

/-- Python `Path(p).name`: the final path component (`""` when there is
none). -/
def pathName (p : String) : String := ⟨(pathComponents p).getLastD []⟩

/-- Python `str(Path(p).parent)`: all but the final component joined by
`/`, and `"."` when fewer than two components remain. -/
def pathParent (p : String) : String :=
  match pathComponents p with
  | [] => "."
  | [_] => "."
  | comps => ⟨List.intercalate ['/'] comps.dropLast⟩

/-- First-match association-list lookup, modelling `dict.get` on a dict
represented with the most recent assignment first. -/
def lookupKey {α : Type} (k : String) : List (String × α) → Option α
  | [] => none
  | kv :: rest => if kv.1 = k then some kv.2 else lookupKey k rest

/-! ### ModelBuilder state and the archive packager -/

/-- The fields of `ModelBuilder` that the packager reads: the build and
source directory paths, the per-file category overrides `zip_dirs`, the
symlinked-library file list and the declared assets. -/
structure MB where
  build_dir : String
  src_dir : String
  zip_dirs : List (String × String)
  library_files : List String
  publish_assets : List String

/-- Model of `ModelBuilder._remove_prefix`: strip the first matching prefix from
`value`, trying the given prefixes in order. -/
def removePrefixes (value : String) : List String → String
  | [] => value
  | p :: rest =>
    if strStartsWith value p then strDrop value p.length
    else removePrefixes value rest

/-- The `dest_stripped` value computed at the top of `zip_file_dest` and
inside `make_zip`: the source path with the build-dir or source-dir
prefix removed. -/
def destStripped (mb : MB) (source : String) : String :=
  removePrefixes source [mb.build_dir ++ "/", mb.src_dir ++ "/"]

/-- Model of `ModelBuilder.zip_file_dest`: the archive destination for a source
file, `none` when the file is excluded (the Python function returns
`None`). -/
def zip_file_dest (mb : MB) (source : String) : Option String :=
  let ds := destStripped mb source
  let dest_path := pathName ds
  let zip_dir := (lookupKey ds mb.zip_dirs).getD ""
  if zip_dir ≠ "" then some (zip_dir ++ "/" ++ dest_path)
  else if strStartsWith ds "images" then
    if strContains ds "readme" then none
    else some ("images/" ++ dest_path)
  else if strEndsWith ds ".stl" then some ("stl/" ++ dest_path)
  else if strEndsWith ds ".pdf" then some ("doc/" ++ dest_path)
  else some ds

/-- Model of `ModelBuilder.Asset`: record each file as a published asset and give
it the per-file category override `zip_dir` (a dict assignment, modelled
by prepending so lookup sees the newest binding). -/
def Asset (mb : MB) (files : List String) (zip_dir : String) : MB :=
  files.foldl
    (fun m f =>
      { m with
        publish_assets := f :: m.publish_assets
        zip_dirs := (f, zip_dir) :: m.zip_dirs })
    mb

/-- Model of `ModelBuilder.Source`: `Asset` with category `"source"`. -/
def Source (mb : MB) (files : List String) : MB := Asset mb files "source"

/-- An entry value in a zip archive: either a plain file's bytes, or a
nested archive (the embedded `libraries.zip`). File contents are
abstracted as an opaque `String` of bytes. -/
inductive ZEntry where
  | file (content : String)
  | zipArc (entries : List (String × ZEntry))

/-- The name `LIBRARIES_ZIP` of the nested library archive. -/
def LIBRARIES_ZIP : String := "libraries.zip"

/-- The entries written into the nested `libraries.zip`: each library
file under its prefix-stripped path. `fs` gives the bytes on disk at a
path. -/
def libEntries (mb : MB) (fs : String → String) : List (String × ZEntry) :=
  mb.library_files.map (fun lf => (destStripped mb lf, ZEntry.file (fs lf)))

/-- Model of `ModelBuilder.make_zip`: the list of entries written to the
printables archive, in order. When there are library files, the nested
`libraries.zip` is written first; then each source that is not a library
file and whose computed destination is truthy (neither `None` nor `""`)
is written at that destination with its on-disk bytes. -/
def make_zip (mb : MB) (fs : String → String) (sources : List String) :
    List (String × ZEntry) :=
  (if mb.library_files.isEmpty then []
   else [(LIBRARIES_ZIP, ZEntry.zipArc (libEntries mb fs))]) ++
  sources.filterMap (fun ss =>
    if ss ∈ mb.library_files then none
    else
      match zip_file_dest mb ss with
      | none => none
      | some d => if d = "" then none else some (d, ZEntry.file (fs ss)))

/-! ### Change filter -/

/-- Model of `ModelBuilder._allowed_by_ref_filter`, returning the include/exclude
decision paired with the lines it prints. The outcome of the
`git diff` subprocess is an explicit input: `Except.error e` models a
raised `subprocess.CalledProcessError e`, `Except.ok lines` the stdout
lines of a successful query. `prevRef = none` or `some ""` are the falsy
`PREV_REF` values for which Python returns `True` before querying. -/
def allowedByRefFilter (prevRef : Option String) (modelDir : String)
    (queryResult : Except String (List String)) : Bool × List String :=
  match prevRef with
  | none => (true, [])
  | some r =>
    if r = "" then (true, [])
    else
      match queryResult with
      | Except.error e => (true, ["Ignoring git diff error: " ++ e])
      | Except.ok lines =>
        let dirs :=
          (lines.filter
            (fun fn => strEndsWith fn ".scad" || strEndsWith fn "/SConscript")).map
            pathParent
        if modelDir ∈ dirs then
          (true,
            ["Including model directory " ++ modelDir ++ " changed since " ++ r])
        else (false, [])

/-- Model of `ModelBuilder.ref_filter`: the decorator that runs the wrapped
declaration only when the filter allows it, so an excluded directory
registers nothing. `f` is the wrapped declaration's effect on the
registration state `S`. -/
def refFilter {S : Type} (allowed : Bool) (f : S → S) : S → S :=
  fun s => if allowed then f s else s

/-! ### Image renderer -/

/-- The renderer's working resolution `IMAGE_RENDER_SIZE`. -/
def IMAGE_RENDER_SIZE : String := "1200x900"

/-- The per-category output sizes `IMAGE_TARGETS`. -/
def IMAGE_TARGETS : List (String × String) :=
  [("images/readme", "400x300"), ("images/publish", IMAGE_RENDER_SIZE)]

/-- The default of the `delay` keyword of `Image` and `render_image`. -/
def defaultDelay : Nat := 75

/-- Python `f"image_{i:05d}"`: decimal digits left-padded with zeros to
width 5. -/
def pad5 (i : Nat) : String :=
  let s := toString i
  ⟨List.replicate (5 - s.length) '0' ++ s.data⟩

/-- The temporary frame file name `f"image_{i:05d}.png"` (the temporary
directory prefix, irrelevant to the claims, is omitted). -/
def frameName (i : Nat) : String := "image_" ++ pad5 i ++ ".png"

/-- Python `Path(p).suffix` / the build node's `suffix`: the extension
of the final component from its last dot, empty when the component has
no dot after its first character (`os.path.splitext` semantics). -/
def pathSuffix (p : String) : String :=
  let name := (splitChar '/' p.data).getLastD []
  let rest := name.dropWhile (fun c => c = '.')
  match splitChar '.' rest with
  | [] => ""
  | [_] => ""
  | pieces => "." ++ ⟨pieces.getLastD []⟩

/-- The montage argv built by `render_image` for a given `-tile` value,
frame list and montage output name. The integer `0` passed for
`-border` is stringified by `_run`. -/
def montageCmd (tile : String) (frames : List String) (montageFn : String) :
    List String :=
  ["montage", "-background", "#333", "-border", "0", "-geometry", "+0+0",
   "-tile", tile] ++ frames ++ [montageFn]

/-- What `render_image` does after the per-frame renders: the frames
rendered, the montage command if one runs, the frame list left for the
final resize, and the final `convert` argv for each target.

Inputs: `targets` pairs each declared output path with its target size
(the `image_targets` entry the code looks up for that node);
`sourceCount` is the number of declared model files (`zip` with
`cycle(source)` yields nothing when `source` is empty, and one frame per
parameter set otherwise); `stlValsCount` is `len(stl_vals_list)`. A
`convert` argv is `none` when the size string has no `"x"` (where
Python's `split("x")[1]` would raise). `none` overall models the
`IndexError` of `target[0]` on an empty target list. -/
structure ImgPlan where
  frames0 : List String
  montage : Option (List String)
  frames : List String
  convertCmds : List (Option (List String))

/-- The montage/convert stage of `ModelBuilder.render_image`. -/
def renderImagePlan (targets : List (String × String)) (sourceCount : Nat)
    (stlValsCount : Nat) (delay : Nat) (tile : String) : Option ImgPlan :=
  match targets with
  | [] => none
  | t0 :: _ =>
    let n := if sourceCount = 0 then 0 else stlValsCount
    let frames0 := (List.range n).map frameName
    let suffix := pathSuffix t0.1
    if 1 < frames0.length ∧ suffix ≠ ".gif" then
      let tile1 :=
        if tile = "" then "x" ++ toString ((frames0.length + 1) / 2) else tile
      let montageFn := "montage" ++ suffix
      some
        { frames0 := frames0
          montage := some (montageCmd tile1 frames0 montageFn)
          frames := [montageFn]
          convertCmds :=
            targets.map (fun t =>
              ((splitChar 'x' t.2.data).get? 1).map (fun h =>
                ["convert", "-resize", "x" ++ ⟨h⟩] ++
                (if suffix = ".gif"
                 then ["-loop", "0", "-delay", toString delay] else []) ++
                [montageFn] ++ [t.1])) }
    else
      some
        { frames0 := frames0
          montage := none
          frames := frames0
          convertCmds :=
            targets.map (fun t =>
              ((splitChar 'x' t.2.data).get? 1).map (fun h =>
                ["convert", "-resize", "x" ++ ⟨h⟩] ++
                (if suffix = ".gif"
                 then ["-loop", "0", "-delay", toString delay] else []) ++
                frames0 ++ [t.1])) }

/-! ### GenerateOptions -/

/-- The scalar option values (`Union[str, int]`). -/
inductive Scalar where
  | str (s : String)
  | int (n : Int)
deriving DecidableEq

/-- One element of a keyword option's value sequence: either a scalar,
or a list/tuple of scalars. -/
inductive OptItem where
  | scalar (v : Scalar)
  | seq (vs : List Scalar)
deriving DecidableEq

/-- Model of `GenerateOptions._value`: a list or tuple contributes its first
element (`value[0]`; `none` models the `IndexError` raised when it is
empty); any other value is returned itself. -/
def genValue : OptItem → Option Scalar
  | OptItem.scalar v => some v
  | OptItem.seq vs => vs.get? 0

/-- Model of `GenerateOptions._file_name_value`: a list or tuple contributes its
second element when it has one (the `IndexError` is suppressed and falls
back to `""`); everything else contributes `""`. -/
def genFileNameValue : OptItem → Scalar
  | OptItem.scalar _ => Scalar.str ""
  | OptItem.seq vs => (vs.get? 1).getD (Scalar.str "")

/-- Model of `itertools.product`: all picks of one element per input list, with
the rightmost position varying fastest. -/
def cartProd {α : Type} : List (List α) → List (List α)
  | [] => [[]]
  | xs :: rest => xs.flatMap (fun x => (cartProd rest).map (fun p => x :: p))

/-- Model of `opt_keys = sorted(self.options.keys())`, for the keyword options
given as an association list with distinct keys. -/
def optKeys (options : List (String × List OptItem)) : List String :=
  List.insertionSort (fun a b => a ≤ b) (options.map Prod.fst)

/-- Model of `args = [self.options[key] for key in opt_keys]`. -/
def optArgs (options : List (String × List OptItem)) : List (List OptItem) :=
  (optKeys options).map (fun k => (lookupKey k options).getD [])

/-- The namespace yielded for one product element `p` zipped with the
sorted keys: the merged dict
`{**{k: _value(v)}, **{f"{k}_fn": _file_name_value(v)}}` behind
`SimpleNamespace`.  On a key collision the second dict overrides the
first, so the `_fn` entries come first in this first-match-lookup
representation. `none` models the `IndexError` raised by `_value`. -/
def nsOf (pairs : List (String × OptItem)) : Option (List (String × Scalar)) :=
  (pairs.mapM (fun kv => (genValue kv.2).map (fun v => (kv.1, v)))).map
    (fun valueFields =>
      pairs.map (fun kv => (kv.1 ++ "_fn", genFileNameValue kv.2)) ++ valueFields)

/-- Model of `GenerateOptions.__iter__`: one yielded namespace per element of the
cartesian product of the option value sequences, keys taken in sorted
order. -/
def generateOptionsList (options : List (String × List OptItem)) :
    List (Option (List (String × Scalar))) :=
  (cartProd (optArgs options)).map (fun p => nsOf ((optKeys options).zip p))

/-! ### Helper lemmas -/

/-- A path that starts with `"images/"` also starts with `"images"`. -/
theorem strStartsWith_images_of_slash (s : String)
    (h : strStartsWith s "images/" = true) : strStartsWith s "images" = true := by
  rw [strStartsWith, decide_eq_true_iff] at h
  rw [strStartsWith, decide_eq_true_iff]
  have h7 : s.data.take 7 = "images/".data := h
  have h67 : s.data.take 6 = (s.data.take 7).take 6 := by
    rw [List.take_take]
    norm_num
  show s.data.take 6 = "images".data
  rw [h67, h7]
  rfl

/-- A path ending in `".pdf"` does not end in `".stl"`. -/
theorem strEndsWith_pdf_not_stl (s : String) (h : strEndsWith s ".pdf" = true) :
    strEndsWith s ".stl" = false := by
  rw [strEndsWith, List.isSuffixOf_iff_suffix] at h
  rw [strEndsWith, Bool.eq_false_iff]
  intro h2
  rw [List.isSuffixOf_iff_suffix] at h2
  rcases List.suffix_or_suffix_of_suffix h h2 with h3 | h3
  · exact absurd (h3.eq_of_length (by decide)) (by decide)
  · exact absurd (h3.eq_of_length (by decide)) (by decide)

/-- Evaluating `lookupKey` after an `Asset` registration: every file of the call is
bound to the call's category, other keys are unchanged. -/
theorem lookupKey_asset (files : List String) (zd : String) (mb : MB) (f : String) :
    lookupKey f (Asset mb files zd).zip_dirs =
      if f ∈ files then some zd else lookupKey f mb.zip_dirs := by
  induction files generalizing mb with
  | nil => simp [Asset]
  | cons g gs ih =>
    have step : Asset mb (g :: gs) zd =
        Asset { mb with publish_assets := g :: mb.publish_assets,
                        zip_dirs := (g, zd) :: mb.zip_dirs } gs zd := by
      rw [Asset, Asset, List.foldl_cons]
    rw [step, ih]
    by_cases hgs : f ∈ gs
    · simp [hgs]
    · by_cases hg : g = f
      · simp [hgs, hg, lookupKey]
      · have hfg : ¬ f = g := fun h2 => hg h2.symm
        simp [lookupKey, hgs, hg, hfg, List.mem_cons]

/-! ### Claims C1, C2, C3, C5 -/

/-- C1: a declared output whose archive-relative path (after stripping
the build-dir or source-dir prefix) lies under `images/`, contains the
substring `"readme"`, and carries no per-file category override, is
excluded by `zip_file_dest` (it returns no destination) and `make_zip`
writes no entry for it. -/
theorem c1_images_readme_excluded (mb : MB) (source : String)
    (hov : (lookupKey (destStripped mb source) mb.zip_dirs).getD "" = "")
    (himg : strStartsWith (destStripped mb source) "images/" = true)
    (hrd : strContains (destStripped mb source) "readme" = true) :
    zip_file_dest mb source = none ∧
      ∀ (fs : String → String) (l1 l2 : List String),
        make_zip mb fs (l1 ++ source :: l2) = make_zip mb fs (l1 ++ l2) := by
  have himg6 := strStartsWith_images_of_slash _ himg
  have hdest : zip_file_dest mb source = none := by
    simp [zip_file_dest, hov, himg6, hrd]
  refine ⟨hdest, ?_⟩
  intro fs l1 l2
  rw [make_zip, make_zip]
  congr 1
  rw [List.filterMap_append, List.filterMap_append]
  congr 1
  rw [List.filterMap_cons_none]
  by_cases hlib : source ∈ mb.library_files
  · simp [hlib]
  · simp [hlib, hdest]

/-- Witness for C1 on a concrete model state and readme image. -/
theorem c1_images_readme_excluded_witness :
    zip_file_dest ⟨"models/t/build", "models/t", [], [], []⟩
        "models/t/images/readme/x.png" = none ∧
      make_zip ⟨"models/t/build", "models/t", [], [], []⟩ (fun p => p)
          (["models/t/t.scad"] ++ "models/t/images/readme/x.png" :: []) =
        make_zip ⟨"models/t/build", "models/t", [], [], []⟩ (fun p => p)
          (["models/t/t.scad"] ++ []) := by
  have h := c1_images_readme_excluded ⟨"models/t/build", "models/t", [], [], []⟩
    "models/t/images/readme/x.png" (by decide) (by decide) (by decide)
  exact ⟨h.1, h.2 (fun p => p) ["models/t/t.scad"] []⟩

/-- C2: with no per-file override and outside an `images` path, a file
ending in `.stl` is placed at `stl/<basename>` and a file ending in
`.pdf` at `doc/<basename>`, whatever the directory depth of the source
path. -/
theorem c2_stl_pdf_dest (mb : MB) (source : String)
    (hov : (lookupKey (destStripped mb source) mb.zip_dirs).getD "" = "")
    (himg : strStartsWith (destStripped mb source) "images" = false) :
    (strEndsWith (destStripped mb source) ".stl" = true →
        zip_file_dest mb source =
          some ("stl/" ++ pathName (destStripped mb source))) ∧
      (strEndsWith (destStripped mb source) ".pdf" = true →
        zip_file_dest mb source =
          some ("doc/" ++ pathName (destStripped mb source))) := by
  constructor
  · intro hstl
    simp [zip_file_dest, hov, himg, hstl]
  · intro hpdf
    have hstl := strEndsWith_pdf_not_stl _ hpdf
    simp [zip_file_dest, hov, himg, hstl, hpdf]

/-- Witness for C2 at depth-3 source paths. -/
theorem c2_stl_pdf_dest_witness :
    zip_file_dest ⟨"b", "s", [], [], []⟩ "b/a/x/deep.stl" = some "stl/deep.stl" ∧
      zip_file_dest ⟨"b", "s", [], [], []⟩ "b/a/x/manual.pdf" =
        some "doc/manual.pdf" := by
  constructor
  · have h := (c2_stl_pdf_dest ⟨"b", "s", [], [], []⟩ "b/a/x/deep.stl"
      (by decide) (by decide)).1 (by decide)
    exact h.trans (by decide)
  · have h := (c2_stl_pdf_dest ⟨"b", "s", [], [], []⟩ "b/a/x/manual.pdf"
      (by decide) (by decide)).2 (by decide)
    exact h.trans (by decide)

/-- C3: a registered per-file category override sends the file to
`<override>/<basename>` whatever the rest of the path looks like (the
override branch precedes the images/readme, `.stl`, `.pdf` and
path-preserving branches), and `Asset` registers exactly such an
override for each of its files. -/
theorem c3_zip_dir_override (mb : MB) (source zd : String)
    (h : lookupKey (destStripped mb source) mb.zip_dirs = some zd)
    (hzd : zd ≠ "") :
    zip_file_dest mb source =
        some (zd ++ "/" ++ pathName (destStripped mb source)) ∧
      ∀ (mb0 : MB) (files : List String) (zd0 f : String), f ∈ files →
        lookupKey f (Asset mb0 files zd0).zip_dirs = some zd0 := by
  constructor
  · simp [zip_file_dest, h, hzd]
  · intro mb0 files zd0 f hf
    rw [lookupKey_asset, if_pos hf]

/-- Witness for C3 on a file that the images/readme rule would exclude
and the `.stl` rule would remap: the override wins. -/
theorem c3_zip_dir_override_witness :
    zip_file_dest ⟨"b", "s", [("images/readme-x.stl", "assets")], [], []⟩
        "s/images/readme-x.stl" = some "assets/readme-x.stl" ∧
      lookupKey "f1" (Asset ⟨"b", "s", [], [], []⟩ ["f1"] "extra").zip_dirs =
        some "extra" := by
  have h := c3_zip_dir_override
    ⟨"b", "s", [("images/readme-x.stl", "assets")], [], []⟩
    "s/images/readme-x.stl" "assets" (by decide) (by decide)
  exact ⟨h.1.trans (by decide), h.2 ⟨"b", "s", [], [], []⟩ ["f1"] "extra" "f1" (by decide)⟩

/-- C5: when a reference is configured and the version-control query
raises, the filter catches the error, logs it, and returns include; the
function is total, so the failure never propagates. -/
theorem c5_ref_filter_fail_open (r modelDir e : String) (hr : r ≠ "") :
    allowedByRefFilter (some r) modelDir (Except.error e) =
      (true, ["Ignoring git diff error: " ++ e]) := by
  simp [allowedByRefFilter, hr]

/-- Witness for C5 on a concrete failing query. -/
theorem c5_ref_filter_fail_open_witness :
    allowedByRefFilter (some "v1") "m" (Except.error "boom") =
      (true, ["Ignoring git diff error: boom"]) := by
  have h := c5_ref_filter_fail_open "v1" "m" "boom" (by decide)
  exact h.trans (by decide)

/-! ### Claim C4 -/

/-- C4: with no reference the filter includes; with a reference and a
successful query it includes exactly when some changed path ending in
`.scad` or `/SConscript` has the model directory as its containing
directory; and a `ref_filter`-guarded declaration leaves the
registration state untouched whenever the filter excludes, so the
directory's default targets register nothing. -/
theorem c4_allowed_by_ref_filter :
    (∀ (modelDir : String) (q : Except String (List String)),
      (allowedByRefFilter none modelDir q).1 = true)
  ∧ (∀ (r modelDir : String) (lines : List String), r ≠ "" →
      ((allowedByRefFilter (some r) modelDir (Except.ok lines)).1 = true ↔
        ∃ fn ∈ lines,
          (strEndsWith fn ".scad" = true ∨ strEndsWith fn "/SConscript" = true) ∧
            pathParent fn = modelDir))
  ∧ (∀ (S : Type) (f : S → S) (s : S) (p : Option String) (modelDir : String)
        (q : Except String (List String)),
      (allowedByRefFilter p modelDir q).1 = false →
      refFilter (allowedByRefFilter p modelDir q).1 f s = s) := by
  refine ⟨fun modelDir q => rfl, ?_, ?_⟩
  · intro r modelDir lines hr
    have hiff : (modelDir ∈ (lines.filter fun fn =>
        strEndsWith fn ".scad" || strEndsWith fn "/SConscript").map pathParent) ↔
        ∃ fn ∈ lines,
          (strEndsWith fn ".scad" = true ∨ strEndsWith fn "/SConscript" = true) ∧
            pathParent fn = modelDir := by
      simp [List.mem_map, List.mem_filter, Bool.or_eq_true, and_assoc]
    simp only [allowedByRefFilter, if_neg hr]
    by_cases hm : modelDir ∈ (lines.filter fun fn =>
        strEndsWith fn ".scad" || strEndsWith fn "/SConscript").map pathParent
    · exact iff_of_true (by simp [hm]) (hiff.mp hm)
    · exact iff_of_false (by simp [hm]) (fun h2 => hm (hiff.mpr h2))
  · intro S f s p modelDir q hfalse
    simp [refFilter, hfalse]

/-- Witness for C4: a changed design file includes its directory, and an
untouched directory's guarded declaration is a no-op. -/
theorem c4_allowed_by_ref_filter_witness :
    (allowedByRefFilter (some "v1") "m" (Except.ok ["m/a.scad", "z/b.txt"])).1 =
        true ∧
      refFilter (allowedByRefFilter (some "v1") "zzz"
          (Except.ok ["m/a.scad", "z/b.txt"])).1 (fun n : Nat => n + 1) 0 = 0 := by
  constructor
  · exact (c4_allowed_by_ref_filter.2.1 "v1" "m" ["m/a.scad", "z/b.txt"]
      (by decide)).mpr ⟨"m/a.scad", by decide, Or.inl (by decide), by decide⟩
  · exact c4_allowed_by_ref_filter.2.2 Nat (fun n => n + 1) 0 (some "v1") "zzz"
      (Except.ok ["m/a.scad", "z/b.txt"]) (by decide)

/-! ### Claims C6, C7, C8 -/

/-- C6: more than one parameter set and a non-gif first target: the
frames are composited into a montage and exactly one frame (the montage
file) remains before the per-target resize. -/
theorem c6_montage_single_frame (t0 : String × String)
    (rest : List (String × String)) (sourceCount stlValsCount delay : Nat)
    (tile : String) (hsc : sourceCount ≠ 0) (hn : 1 < stlValsCount)
    (hg : pathSuffix t0.1 ≠ ".gif") :
    ∃ plan : ImgPlan,
      renderImagePlan (t0 :: rest) sourceCount stlValsCount delay tile =
          some plan ∧
        plan.montage.isSome = true ∧
        plan.frames = ["montage" ++ pathSuffix t0.1] ∧
        plan.frames.length = 1 := by
  simp only [renderImagePlan]
  rw [if_neg hsc, if_pos (by simpa using And.intro hn hg)]
  exact ⟨_, rfl, rfl, rfl, rfl⟩

/-- Witness for C6 with two parameter sets and a static image target. -/
theorem c6_montage_single_frame_witness :
    ∃ plan : ImgPlan,
      renderImagePlan [("images/readme/foo.png", "400x300")] 1 2 75 "" =
          some plan ∧
        plan.montage.isSome = true ∧
        plan.frames = ["montage" ++ pathSuffix "images/readme/foo.png"] ∧
        plan.frames.length = 1 :=
  c6_montage_single_frame ("images/readme/foo.png", "400x300") [] 1 2 75 ""
    (by decide) (by decide) (by decide)

/-- C7: with no explicit tile, more than one frame and a non-gif first
target, the montage `-tile` argument is `"x"` followed by
`⌈frames/2⌉`. -/
theorem c7_montage_tile_heuristic (t0 : String × String)
    (rest : List (String × String)) (sourceCount stlValsCount delay : Nat)
    (hsc : sourceCount ≠ 0) (hn : 1 < stlValsCount)
    (hg : pathSuffix t0.1 ≠ ".gif") :
    ∃ plan : ImgPlan,
      renderImagePlan (t0 :: rest) sourceCount stlValsCount delay "" =
          some plan ∧
        plan.montage = some
          (["montage", "-background", "#333", "-border", "0", "-geometry",
            "+0+0", "-tile", "x" ++ toString (stlValsCount ⌈/⌉ 2)] ++
            plan.frames0 ++ ["montage" ++ pathSuffix t0.1]) := by
  simp only [renderImagePlan]
  rw [if_neg hsc, if_pos (by simpa using And.intro hn hg)]
  refine ⟨_, rfl, ?_⟩
  simp only [montageCmd, if_pos rfl, List.length_map, List.length_range]
  rfl

/-- Witness for C7: three frames montage with `-tile x2`. -/
theorem c7_montage_tile_heuristic_witness :
    ∃ plan : ImgPlan,
      renderImagePlan [("images/readme/foo.png", "400x300")] 1 3 75 "" =
          some plan ∧
        plan.montage = some
          (["montage", "-background", "#333", "-border", "0", "-geometry",
            "+0+0", "-tile", "x" ++ toString (3 ⌈/⌉ 2)] ++
            plan.frames0 ++ ["montage" ++ pathSuffix "images/readme/foo.png"]) :=
  c7_montage_tile_heuristic ("images/readme/foo.png", "400x300") [] 1 3 75
    (by decide) (by decide) (by decide)

/-- C8: a `.gif` first target: no montage runs, all rendered frames are
kept, and every final convert command carries `-loop 0` and
`-delay <delay>` ahead of the full frame list. -/
theorem c8_gif_loop_delay (t0 : String × String)
    (rest : List (String × String)) (sourceCount stlValsCount delay : Nat)
    (tile : String) (hg : pathSuffix t0.1 = ".gif") :
    ∃ plan : ImgPlan,
      renderImagePlan (t0 :: rest) sourceCount stlValsCount delay tile =
          some plan ∧
        plan.montage = none ∧
        plan.frames = plan.frames0 ∧
        plan.convertCmds = (t0 :: rest).map (fun t =>
          ((splitChar 'x' t.2.data).get? 1).map (fun h =>
            ["convert", "-resize", "x" ++ String.mk h, "-loop", "0", "-delay",
              toString delay] ++ plan.frames0 ++ [t.1])) ∧
        defaultDelay = 75 := by
  simp only [renderImagePlan]
  rw [if_neg (by simp [hg])]
  refine ⟨_, rfl, rfl, rfl, ?_, rfl⟩
  simp [hg]

/-- Witness for C8 on a two-frame animated target. -/
theorem c8_gif_loop_delay_witness :
    ∃ plan : ImgPlan,
      renderImagePlan [("images/publish/foo.gif", "1200x900")] 1 2 75 "" =
          some plan ∧
        plan.montage = none ∧
        plan.frames = plan.frames0 ∧
        plan.convertCmds = [("images/publish/foo.gif", "1200x900")].map (fun t =>
          ((splitChar 'x' t.2.data).get? 1).map (fun h =>
            ["convert", "-resize", "x" ++ String.mk h, "-loop", "0", "-delay",
              toString 75] ++ plan.frames0 ++ [t.1])) ∧
        defaultDelay = 75 :=
  c8_gif_loop_delay ("images/publish/foo.gif", "1200x900") [] 1 2 75 ""
    (by decide)

/-! ### Claim C9 -/

/-- C9: every non-library source whose computed destination is truthy is
recoverable in the archive at that destination with its exact bytes; when
library files exist the archive holds the nested `libraries.zip` entry,
which contains every library file at its stripped path; and sources that
are all library files contribute no loose entries at all. -/
theorem c9_make_zip_round_trip (mb : MB) (fs : String → String)
    (sources : List String) :
    (∀ ss ∈ sources, ss ∉ mb.library_files →
        ∀ d, zip_file_dest mb ss = some d → d ≠ "" →
          (d, ZEntry.file (fs ss)) ∈ make_zip mb fs sources)
  ∧ (mb.library_files ≠ [] →
      (LIBRARIES_ZIP, ZEntry.zipArc (libEntries mb fs)) ∈ make_zip mb fs sources)
  ∧ (∀ lf ∈ mb.library_files,
      (destStripped mb lf, ZEntry.file (fs lf)) ∈ libEntries mb fs)
  ∧ ((∀ ss ∈ sources, ss ∈ mb.library_files) →
      make_zip mb fs sources =
        if mb.library_files.isEmpty then []
        else [(LIBRARIES_ZIP, ZEntry.zipArc (libEntries mb fs))]) := by
  refine ⟨?_, ?_, ?_, ?_⟩
  · intro ss hss hnl d hd hne
    rw [make_zip]
    apply List.mem_append_right
    apply List.mem_filterMap.mpr
    refine ⟨ss, hss, ?_⟩
    simp only [if_neg hnl, hd, if_neg hne]
  · intro hlib
    rw [make_zip]
    apply List.mem_append_left
    rw [if_neg (by simp [List.isEmpty_iff, hlib])]
    exact List.mem_singleton_self _
  · intro lf hlf
    exact List.mem_map_of_mem _ hlf
  · intro hall
    rw [make_zip]
    have hnil : sources.filterMap (fun ss =>
        if ss ∈ mb.library_files then none
        else
          match zip_file_dest mb ss with
          | none => none
          | some d => if d = "" then none else some (d, ZEntry.file (fs ss))) =
        [] := by
      apply List.filterMap_eq_nil_iff.mpr
      intro a ha
      rw [if_pos (hall a ha)]
    rw [hnil, List.append_nil]

/-- Witness for C9: a model directory with one library file and one STL
output. -/
theorem c9_make_zip_round_trip_witness :
    ("stl/foo.stl", ZEntry.file "C:b/foo.stl") ∈
        make_zip ⟨"b", "s", [], ["s/lib/l.scad"], []⟩ (fun p => "C:" ++ p)
          ["b/foo.stl", "s/lib/l.scad"] ∧
      (LIBRARIES_ZIP,
          ZEntry.zipArc (libEntries ⟨"b", "s", [], ["s/lib/l.scad"], []⟩
            (fun p => "C:" ++ p))) ∈
        make_zip ⟨"b", "s", [], ["s/lib/l.scad"], []⟩ (fun p => "C:" ++ p)
          ["b/foo.stl", "s/lib/l.scad"] ∧
      ("lib/l.scad", ZEntry.file "C:s/lib/l.scad") ∈
        libEntries ⟨"b", "s", [], ["s/lib/l.scad"], []⟩ (fun p => "C:" ++ p) ∧
      make_zip ⟨"b", "s", [], ["s/lib/l.scad"], []⟩ (fun p => "C:" ++ p)
          ["s/lib/l.scad"] =
        [(LIBRARIES_ZIP,
          ZEntry.zipArc (libEntries ⟨"b", "s", [], ["s/lib/l.scad"], []⟩
            (fun p => "C:" ++ p)))] := by
  refine ⟨?_, ?_, ?_, ?_⟩
  · exact (c9_make_zip_round_trip ⟨"b", "s", [], ["s/lib/l.scad"], []⟩
      (fun p => "C:" ++ p) ["b/foo.stl", "s/lib/l.scad"]).1 "b/foo.stl"
      (by decide) (by decide) "stl/foo.stl" (by decide) (by decide)
  · exact (c9_make_zip_round_trip ⟨"b", "s", [], ["s/lib/l.scad"], []⟩
      (fun p => "C:" ++ p) ["b/foo.stl", "s/lib/l.scad"]).2.1 (by decide)
  · have h := (c9_make_zip_round_trip ⟨"b", "s", [], ["s/lib/l.scad"], []⟩
      (fun p => "C:" ++ p) ["b/foo.stl", "s/lib/l.scad"]).2.2.1
      "s/lib/l.scad" (by decide)
    exact h
  · have h := (c9_make_zip_round_trip ⟨"b", "s", [], ["s/lib/l.scad"], []⟩
      (fun p => "C:" ++ p) ["s/lib/l.scad"]).2.2.2 (by decide)
    rw [h]
    rfl

/-! ### Claim C10: helper lemmas -/

/-- Lemma: `cartProd` yields one pick per element of the cartesian product: its
length is the product of the input lengths. -/
theorem cartProd_length {α : Type} (ls : List (List α)) :
    (cartProd ls).length = (ls.map List.length).prod := by
  induction ls with
  | nil => rfl
  | cons xs rest ih =>
    have h1 : List.map
        (List.length ∘ fun x => List.map (fun p => x :: p) (cartProd rest)) xs =
        List.map (fun _ => (cartProd rest).length) xs :=
      List.map_congr_left (fun a _ => by simp [Function.comp])
    simp [cartProd, h1, List.map_const', List.sum_replicate, smul_eq_mul, ih,
      Nat.mul_comm]

/-- Membership in `cartProd`: exactly the lists picking one element from
each input list, position by position. -/
theorem mem_cartProd {α : Type} (ls : List (List α)) (p : List α) :
    p ∈ cartProd ls ↔ List.Forall₂ (fun x xs => x ∈ xs) p ls := by
  induction ls generalizing p with
  | nil =>
    constructor
    · intro h
      have hp : p = [] := by simpa [cartProd] using h
      subst hp
      exact List.Forall₂.nil
    · intro h
      cases h
      simp [cartProd]
  | cons xs rest ih =>
    constructor
    · intro h
      rw [cartProd] at h
      rcases List.mem_flatMap.mp h with ⟨x, hx, hp⟩
      rcases List.mem_map.mp hp with ⟨q, hq, rfl⟩
      exact List.Forall₂.cons hx ((ih q).mp hq)
    · intro h
      cases h with
      | cons hx hq =>
        show _ ∈ cartProd (xs :: rest)
        rw [cartProd]
        exact List.mem_flatMap.mpr
          ⟨_, hx, List.mem_map.mpr ⟨_, (ih _).mpr hq, rfl⟩⟩

/-- Lemma: `_value` succeeds on a scalar and on a nonempty list/tuple. -/
theorem genValue_some (it : OptItem)
    (h : ∀ vs, it = OptItem.seq vs → vs ≠ []) :
    genValue it = some ((genValue it).getD (Scalar.str "")) := by
  cases it with
  | scalar v => rfl
  | seq vs =>
    cases vs with
    | nil => exact absurd rfl (h [] rfl)
    | cons a t => rfl

/-- When every list/tuple among the chosen items is nonempty, building
the value fields succeeds. -/
theorem mapM_genValue_eq (pairs : List (String × OptItem))
    (hne : ∀ kv ∈ pairs, ∀ vs, kv.2 = OptItem.seq vs → vs ≠ []) :
    pairs.mapM (fun kv => (genValue kv.2).map (fun v => (kv.1, v))) =
      some (pairs.map (fun kv =>
        (kv.1, (genValue kv.2).getD (Scalar.str "")))) := by
  induction pairs with
  | nil => rfl
  | cons kv rest ih =>
    have hv := genValue_some kv.2 (hne kv (List.mem_cons_self _ _))
    rw [List.mapM_cons, hv,
      ih (fun kv2 h2 => hne kv2 (List.mem_cons_of_mem _ h2))]
    simp

/-- Lookup skips a block in which the key never occurs. -/
theorem lookupKey_append_of_none {α : Type} (k : String)
    (l1 l2 : List (String × α)) (h : lookupKey k l1 = none) :
    lookupKey k (l1 ++ l2) = lookupKey k l2 := by
  induction l1 with
  | nil => rfl
  | cons kv rest ih =>
    rw [List.cons_append, lookupKey]
    rw [lookupKey] at h
    by_cases hk : kv.1 = k
    · rw [if_pos hk] at h
      cases h
    · rw [if_neg hk] at h ⊢
      exact ih h

/-- Lookup found in the first block ignores the second. -/
theorem lookupKey_append_of_some {α : Type} (k : String)
    (l1 l2 : List (String × α)) (v : α) (h : lookupKey k l1 = some v) :
    lookupKey k (l1 ++ l2) = some v := by
  induction l1 with
  | nil => cases h
  | cons kv rest ih =>
    rw [List.cons_append, lookupKey]
    rw [lookupKey] at h
    by_cases hk : kv.1 = k
    · rwa [if_pos hk] at h ⊢
    · rw [if_neg hk] at h ⊢
      exact ih h

/-- A mapped association list in which no produced key equals `k` looks
up to nothing. -/
theorem lookupKey_map_of_ne {α β : Type} (k : String)
    (pairs : List (String × α)) (f : String × α → String × β)
    (h : ∀ kv ∈ pairs, (f kv).1 ≠ k) :
    lookupKey k (pairs.map f) = none := by
  induction pairs with
  | nil => rfl
  | cons kv rest ih =>
    rw [List.map_cons, lookupKey, if_neg (h kv (List.mem_cons_self _ _))]
    exact ih (fun kv2 h2 => h kv2 (List.mem_cons_of_mem _ h2))

/-- Looking up the transformed key of a member of a distinct-keys
association list mapped through an injective key transform finds that
member's value. -/
theorem lookupKey_map_eq {α β : Type} (pairs : List (String × α))
    (keyFn : String → String) (g : String × α → β)
    (hinj : ∀ a b, keyFn a = keyFn b → a = b)
    (hnd : (pairs.map Prod.fst).Nodup) (kv : String × α) (hkv : kv ∈ pairs) :
    lookupKey (keyFn kv.1) (pairs.map (fun kv2 => (keyFn kv2.1, g kv2))) =
      some (g kv) := by
  induction pairs with
  | nil => cases hkv
  | cons hd rest ih =>
    have hnd2 : hd.1 ∉ rest.map Prod.fst ∧ (rest.map Prod.fst).Nodup := by
      simpa [List.nodup_cons] using hnd
    simp only [List.map_cons, lookupKey]
    rcases List.mem_cons.mp hkv with rfl | hmem
    · rw [if_pos rfl]
    · have hne2 : keyFn hd.1 ≠ keyFn kv.1 := by
        intro he
        have h1 : hd.1 = kv.1 := hinj _ _ he
        exact hnd2.1 (h1 ▸ List.mem_map_of_mem Prod.fst hmem)
      rw [if_neg hne2]
      exact ih hnd2.2 hmem

/-- String append on the right is cancellative. -/
theorem strAppend_right_cancel (a b c : String) (h : a ++ c = b ++ c) :
    a = b := by
  apply String.ext
  have h2 : a.data ++ c.data = b.data ++ c.data := by
    rw [← String.data_append, ← String.data_append, h]
  exact List.append_cancel_right h2

/-- The namespace built for distinct, `_fn`-collision-free keys and
nonempty chosen sequences: it exists, its plain field for each pair is
`_value` of the chosen item and its `_fn` field is `_file_name_value`
of the chosen item. -/
theorem nsOf_lookup (pairs : List (String × OptItem))
    (hnd : (pairs.map Prod.fst).Nodup)
    (hfn : ∀ k1 ∈ pairs.map Prod.fst, ∀ k2 ∈ pairs.map Prod.fst,
      k1 ≠ k2 ++ "_fn")
    (hne : ∀ kv ∈ pairs, ∀ vs, kv.2 = OptItem.seq vs → vs ≠ []) :
    ∃ ns, nsOf pairs = some ns ∧
      ∀ kv ∈ pairs,
        lookupKey kv.1 ns = genValue kv.2 ∧
        lookupKey (kv.1 ++ "_fn") ns = some (genFileNameValue kv.2) := by
  refine ⟨pairs.map (fun kv => (kv.1 ++ "_fn", genFileNameValue kv.2)) ++
      pairs.map (fun kv => (kv.1, (genValue kv.2).getD (Scalar.str ""))),
    ?_, ?_⟩
  · rw [nsOf, mapM_genValue_eq pairs hne]
    rfl
  · intro kv hkv
    constructor
    · rw [lookupKey_append_of_none _ _ _
        (lookupKey_map_of_ne _ _ _ (fun kv2 h2 =>
          Ne.symm (hfn kv.1 (List.mem_map_of_mem Prod.fst hkv)
            kv2.1 (List.mem_map_of_mem Prod.fst h2))))]
      rw [genValue_some kv.2 (hne kv hkv)]
      exact lookupKey_map_eq pairs id
        (fun kv2 => (genValue kv2.2).getD (Scalar.str "")) (fun a b h => h)
        hnd kv hkv
    · exact lookupKey_append_of_some _ _ _ _
        (lookupKey_map_eq pairs (fun s => s ++ "_fn")
          (fun kv2 => genFileNameValue kv2.2)
          (fun a b h => strAppend_right_cancel a b "_fn" h) hnd kv hkv)

/-! ### Claim C10 -/

/-- C10: iterating `GenerateOptions` yields exactly one namespace per
element of the cartesian product of the option value sequences, the keys
combined in sorted key order; for each key the namespace's field holds
the first element when the chosen value is a list/tuple and the value
itself otherwise, and the `<key>_fn` field holds the second element when
the chosen value is a list/tuple with at least two elements and the
empty string otherwise. (Stated for distinct keys — Python keyword
arguments — none of which is another key with `_fn` appended, and for
picks whose lists/tuples are nonempty, where `_value` does not raise.) -/
theorem c10_generate_options (options : List (String × List OptItem))
    (hnd : (options.map Prod.fst).Nodup)
    (hfn : ∀ k1 ∈ options.map Prod.fst, ∀ k2 ∈ options.map Prod.fst,
      k1 ≠ k2 ++ "_fn") :
    ((generateOptionsList options).length =
        ((optArgs options).map List.length).prod)
  ∧ (optKeys options).Sorted (fun a b => a ≤ b)
  ∧ (optKeys options).Perm (options.map Prod.fst)
  ∧ (∀ p : List OptItem,
      List.Forall₂ (fun it vs => it ∈ vs) p (optArgs options) →
      nsOf ((optKeys options).zip p) ∈ generateOptionsList options
      ∧ ((∀ it ∈ p, ∀ vs, it = OptItem.seq vs → vs ≠ []) →
          ∃ ns, nsOf ((optKeys options).zip p) = some ns
            ∧ ∀ kv ∈ (optKeys options).zip p,
                lookupKey kv.1 ns =
                  (match kv.2 with
                   | OptItem.scalar v => some v
                   | OptItem.seq vs => vs.get? 0)
              ∧ lookupKey (kv.1 ++ "_fn") ns =
                  some (match kv.2 with
                        | OptItem.scalar _ => Scalar.str ""
                        | OptItem.seq vs => (vs.get? 1).getD (Scalar.str "")))) := by
  have hperm : (optKeys options).Perm (options.map Prod.fst) :=
    List.perm_insertionSort _ _
  refine ⟨?_, ?_, hperm, ?_⟩
  · simp [generateOptionsList, cartProd_length]
  · exact List.sorted_insertionSort _ _
  · intro p hp
    have hlen : p.length = (optKeys options).length := by
      have h1 := List.Forall₂.length_eq hp
      simp only [optArgs, List.length_map] at h1
      exact h1
    have hzipnd : (((optKeys options).zip p).map Prod.fst).Nodup := by
      rw [List.map_fst_zip _ _ (le_of_eq hlen.symm)]
      exact hperm.nodup_iff.mpr hnd
    have hzipfn : ∀ k1 ∈ ((optKeys options).zip p).map Prod.fst,
        ∀ k2 ∈ ((optKeys options).zip p).map Prod.fst, k1 ≠ k2 ++ "_fn" := by
      rw [List.map_fst_zip _ _ (le_of_eq hlen.symm)]
      intro k1 h1 k2 h2
      exact hfn k1 (hperm.mem_iff.mp h1) k2 (hperm.mem_iff.mp h2)
    constructor
    · exact List.mem_map_of_mem _ ((mem_cartProd _ _).mpr hp)
    · intro hne
      have hzipne : ∀ kv ∈ (optKeys options).zip p,
          ∀ vs, kv.2 = OptItem.seq vs → vs ≠ [] := by
        intro kv hkv vs hvs
        exact hne kv.2 (List.of_mem_zip hkv).2 vs hvs
      obtain ⟨ns, hns, hlook⟩ := nsOf_lookup _ hzipnd hzipfn hzipne
      refine ⟨ns, hns, ?_⟩
      intro kv hkv
      obtain ⟨hv, hf⟩ := hlook kv hkv
      constructor
      · rw [hv]
        cases kv.2 <;> rfl
      · rw [hf]
        cases kv.2 <;> rfl

/-- Witness for C10: a single option `a=[("x", "y")]`, whose sole
namespace has `a = "x"` and `a_fn = "y"`. -/
theorem c10_generate_options_witness :
    ((generateOptionsList [("a", [OptItem.seq [Scalar.str "x", Scalar.str "y"]])]).length =
        ((optArgs [("a", [OptItem.seq [Scalar.str "x", Scalar.str "y"]])]).map
          List.length).prod)
  ∧ ∃ ns,
      nsOf ((optKeys [("a", [OptItem.seq [Scalar.str "x", Scalar.str "y"]])]).zip
        [OptItem.seq [Scalar.str "x", Scalar.str "y"]]) = some ns
      ∧ lookupKey "a" ns = some (Scalar.str "x")
      ∧ lookupKey ("a" ++ "_fn") ns = some (Scalar.str "y") := by
  have h := c10_generate_options
    [("a", [OptItem.seq [Scalar.str "x", Scalar.str "y"]])] (by decide) (by decide)
  refine ⟨h.1, ?_⟩
  have h4 := h.2.2.2 [OptItem.seq [Scalar.str "x", Scalar.str "y"]]
    (List.Forall₂.cons (List.mem_singleton_self _) List.Forall₂.nil)
  obtain ⟨ns, hns, hlook⟩ := h4.2 (by
    intro it hit vs hvs
    have hit2 : it = OptItem.seq [Scalar.str "x", Scalar.str "y"] :=
      List.mem_singleton.mp hit
    rw [hit2] at hvs
    injection hvs with h2
    rw [← h2]
    decide)
  refine ⟨ns, hns, ?_, ?_⟩
  · exact ((hlook ("a", OptItem.seq [Scalar.str "x", Scalar.str "y"])
      (by decide)).1).trans (by decide)
  · exact ((hlook ("a", OptItem.seq [Scalar.str "x", Scalar.str "y"])
      (by decide)).2).trans (by decide)

end Monoscad
